import Mathlib

/-!
Shallow embedding of the `pngglitch` package (`pngglitch/__init__.py`).

Bytes are modelled as `Nat` (all byte values produced by the code are
already reduced mod 256 where the source masks them), byte strings as
`List Nat`.  The zlib compressor/decompressor pair is kept abstract: the
theorems that need it quantify over a `deflate`/`inflate` pair together
with the round-trip law `inflate (deflate b) = b`.  Randomness is
derandomised: every randomly sampled value (positions, noise bytes,
gaussian glitch sizes) becomes an explicit parameter, exactly covering
the values the Python `random` calls can produce.  Python's unbounded
`while` loop in `random_glitches` and the chunk-reading loop in
`PNGFile.__init__` are modelled with an explicit fuel argument; fuel
sufficiency is proved where needed.
-/

namespace Pngglitch

/-- CRC-32 single bit round: models one iteration of the standard
reflected CRC-32 polynomial division used by `zlib.crc32`. -/
def crc32Round (c : Nat) : Nat :=
  if c % 2 = 1 then (c / 2) ^^^ 0xEDB88320 else c / 2

/-- CRC-32 update by one input byte (models `zlib.crc32`). -/
def crc32Byte (c b : Nat) : Nat :=
  crc32Round^[8] (c ^^^ (b % 256))

/-- CRC-32 of a byte string, as computed by `zlib.crc32` with the
default starting value. -/
def crc32 (data : List Nat) : Nat :=
  (data.foldl crc32Byte 0xFFFFFFFF) ^^^ 0xFFFFFFFF

/-- The magic PNG header `b'\x89PNG\r\n\x1a\n'` from `PNGFile.__init__`. -/
def magicHeader : List Nat := [0x89, 0x50, 0x4E, 0x47, 0x0D, 0x0A, 0x1A, 0x0A]

/-- The 4 ASCII bytes of the chunk type `"IDAT"`. -/
def idatName : List Nat := [73, 68, 65, 84]

/-- The 4 ASCII bytes of the chunk type `"IEND"`. -/
def iendName : List Nat := [73, 69, 78, 68]

/-- Model of the `Chunk` class: chunk type bytes, file position, stored
payload length, stored CRC, and raw payload.  `length` and `crc` are
ordinary mutable attributes in the source, so they are independent
record fields here (they can in principle go stale, exactly as in the
code). -/
structure Chunk where
  name : List Nat
  pos : Nat
  length : Nat
  crc : Nat
  raw_data : List Nat
deriving DecidableEq, Repr

/-- Model of `Chunk.set_long`: big-endian 4-byte encoding of an integer,
`(num >> (8 * (3 - i))) & 0xFF` for `i in range(4)` (the `& 0xFF` mask
is written `% 256`). -/
def Chunk.set_long (num : Nat) : List Nat :=
  (List.range 4).map (fun i => (num >>> (8 * (3 - i))) % 256)

/-- Model of `Chunk.get_long`: big-endian decoding,
`sum(byte << (8 * (3 - i)) for i, byte in enumerate(buf))`. -/
def Chunk.get_long (buf : List Nat) : Nat :=
  (buf.enum.map (fun ib => ib.2 <<< (8 * (3 - ib.1)))).sum

/-- Model of `Chunk.compute_crc`: `zlib.crc32(name + raw_data)`. -/
def Chunk.compute_crc (c : Chunk) : Nat :=
  crc32 (c.name ++ c.raw_data)

/-- Model of the `Chunk.data` property setter: assigns `raw_data`, then
`update_crc()` (CRC of type + new payload), then `length = len(new_data)`. -/
def Chunk.set_data (c : Chunk) (new_data : List Nat) : Chunk :=
  let c' : Chunk := { c with raw_data := new_data }
  { c' with crc := c'.compute_crc, length := new_data.length }

/-- Model of the `Chunk` constructor `Chunk(name, data)`: sets `pos = 0`,
`length = len(data)`, then routes `data` through the `data` property
setter.  (The constructor's 4-letter type check is omitted: every
modelled call site passes a literal 4-byte type.) -/
def Chunk.init (name : List Nat) (data : List Nat) : Chunk :=
  Chunk.set_data { name := name, pos := 0, length := data.length, crc := 0, raw_data := [] } data

/-- Model of `Chunk.get_raw`: serialized chunk
`set_long(length) + name + raw_data + set_long(crc)`, using the *stored*
`length` and `crc` attributes. -/
def Chunk.get_raw (c : Chunk) : List Nat :=
  Chunk.set_long c.length ++ c.name ++ c.raw_data ++ Chunk.set_long c.crc

/-- Model of the `PNGFile` class: the 8 header bytes plus the chunk list. -/
structure PNGFile where
  header : List Nat
  chunks : List Chunk
deriving DecidableEq, Repr

/-- Model of the chunk-reading loop of `PNGFile.__init__` together with
`Chunk.from_file`.  `s` is the remaining byte stream, `off` the current
file offset (each chunk records the offset at which it starts, matching
`self.pos = pngfile.tell()`).  A short read at end of file yields a
chunk type of fewer than 4 bytes, which `from_file` rejects with
`TypeError` (modelled as `.error ()`).  A chunk whose stored length is 0
is falsy (`Chunk.__nonzero__`), terminating the loop without being
stored.  The fuel argument only makes the recursion structural; every
recursive step consumes at least 13 bytes of `s`, so
`s.length + 1` fuel never runs out (proved below). -/
def parseChunksAux (fuel : Nat) (s : List Nat) (off : Nat) : Except Unit (List Chunk) :=
  match fuel with
  | 0 => .error ()
  | fuel + 1 =>
    if ((s.drop 4).take 4).length ≠ 4 then .error ()
    else
      let L := Chunk.get_long (s.take 4)
      if L = 0 then .ok []
      else
        match parseChunksAux fuel (s.drop (12 + L)) (off + 12 + L) with
        | .error e => .error e
        | .ok cs =>
          .ok ({ name := (s.drop 4).take 4, pos := off, length := L,
                 crc := Chunk.get_long ((s.drop (8 + L)).take 4),
                 raw_data := (s.drop 8).take L } :: cs)

/-- Model of `PNGFile.__init__(image_name)` reading the byte string `f`:
check the 8-byte magic header, then parse chunks until a zero-length
chunk terminates the loop. -/
def PNGFile.load (f : List Nat) : Except Unit PNGFile :=
  if f.take 8 = magicHeader then
    (parseChunksAux ((f.drop 8).length + 1) (f.drop 8) 8).map (fun cs => ⟨f.take 8, cs⟩)
  else .error ()

/-- Model of `PNGFile.write`: the header followed by every chunk's
`get_raw()` serialization. -/
def PNGFile.write (png : PNGFile) : List Nat :=
  png.header ++ (png.chunks.map Chunk.get_raw).flatten

/-- Model of `PNGFile.idat_chunks`: all chunks of type `IDAT`, in order. -/
def PNGFile.idat_chunks (png : PNGFile) : List Chunk :=
  png.chunks.filter (fun c => c.name == idatName)

/-- Model of `PNGFile.various_chunks`: all chunks whose type is neither
`IDAT` nor `IEND`, in order. -/
def PNGFile.various_chunks (png : PNGFile) : List Chunk :=
  png.chunks.filter (fun c => !(c.name == idatName || c.name == iendName))

/-- Model of `PNGFile.decompress`: inflate the concatenation of all
`IDAT` payloads.  `inflate` stands for `zlib.decompress`. -/
def PNGFile.decompress (inflate : List Nat → List Nat) (png : PNGFile) : List Nat :=
  inflate ((png.idat_chunks.map (fun c => c.raw_data)).flatten)

/-- Model of `PNGFile.buffer_to_chunks`: deflate `buf`, then slice the
compressed stream into `chunk_size`-byte pieces
(`buf[i*chunk_size:(i+1)*chunk_size]`), each wrapped in a fresh `IDAT`
chunk.  `deflate` stands for `zlib.compress`; the chunk count is
`len(buf) / chunk_size` (floor) plus one when the division leaves a
remainder. -/
def PNGFile.buffer_to_chunks (deflate : List Nat → List Nat) (buf : List Nat)
    (chunk_size : Nat) : List Chunk :=
  let cbuf := deflate buf
  let chunk_count := cbuf.length / chunk_size + (if cbuf.length % chunk_size ≠ 0 then 1 else 0)
  (List.range chunk_count).map
    (fun i => Chunk.init idatName ((cbuf.take ((i + 1) * chunk_size)).drop (i * chunk_size)))

/-- Model of `PNGFile.overload`: take the payload length of the first
`IDAT` chunk (`next(self.idat_chunks())`, `none` when there is no such
chunk and `StopIteration` is raised), keep the `various_chunks`, append
the recompressed `IDAT` chunks and one fresh `IEND` chunk. -/
def PNGFile.overload (deflate : List Nat → List Nat) (png : PNGFile)
    (buf : List Nat) : Option PNGFile :=
  match png.idat_chunks.head? with
  | none => none
  | some c =>
    some { png with
           chunks := png.various_chunks
             ++ PNGFile.buffer_to_chunks deflate buf c.length
             ++ [Chunk.init iendName []] }

/-- Model of `GlitchedPNGFile.random_bytes`: `length` independently
sampled bytes; the sampler `rng` is the explicit source of the values
`random.randint(0, 255)` produces. -/
def GlitchedPNGFile.random_bytes (rng : Nat → Nat) (length : Nat) : List Nat :=
  (List.range length).map (fun i => rng i % 256)

/-- Model of `GlitchedPNGFile.replace`: slice-assign
`buf[pos:pos+len(rep)] = rep`, then `del buf[length:]` truncates back to
the original length. -/
def GlitchedPNGFile.replace (buf : List Nat) (pos : Nat) (rep : List Nat) : List Nat :=
  (buf.take pos ++ rep ++ buf.drop (pos + rep.length)).take buf.length

/-- Model of `GlitchedPNGFile.fill_noise` with an explicit position
(when `pos` is omitted in the source it is drawn uniformly from the
in-bounds range; the theorems quantify over `pos`). -/
def GlitchedPNGFile.fill_noise (buf : List Nat) (length pos : Nat) (rng : Nat → Nat) : List Nat :=
  GlitchedPNGFile.replace buf pos (GlitchedPNGFile.random_bytes rng length)

/-- Model of `GlitchedPNGFile.fill_zeros` with an explicit position:
overwrite with `length * '\x00'`. -/
def GlitchedPNGFile.fill_zeros (buf : List Nat) (length pos : Nat) : List Nat :=
  GlitchedPNGFile.replace buf pos (List.replicate length 0)

/-- Model of `GlitchedPNGFile.move` with explicit positions:
`_remove(from_, length)` cuts `buf[from_:from_+length]` out, then
`_insert(to_, rem)` splices the removed bytes back in at `to_`. -/
def GlitchedPNGFile.move (buf : List Nat) (length from_ to_ : Nat) : List Nat :=
  let rem := (buf.drop from_).take length
  let b := buf.take from_ ++ buf.drop (from_ + length)
  b.take to_ ++ rem ++ b.drop to_

/-- Model of `GlitchedPNGFile.switch` with all four arguments explicit:
if `pos_one > pos_two` the two (length, position) pairs are swapped;
the `assert pos_one + len_one <= pos_two` is modelled by returning
`none` when it fails; otherwise block two is moved into the gap right
after block one, then block one is moved to `pos_two`. -/
def GlitchedPNGFile.switch (buf : List Nat) (len_one pos_one len_two pos_two : Nat) :
    Option (List Nat) :=
  let p := if pos_one > pos_two then (pos_two, len_two, pos_one, len_one)
           else (pos_one, len_one, pos_two, len_two)
  if p.1 + p.2.1 ≤ p.2.2.1 then
    some (GlitchedPNGFile.move
            (GlitchedPNGFile.move buf p.2.2.2 p.2.2.1 (p.1 + p.2.1))
            p.2.1 p.1 p.2.2.1)
  else none

/-- Model of the budget loop of `GlitchedPNGFile.random_glitches`:
`samples k` is the value `int(random.gauss(glitch_size, glitch_dev))`
drawn in iteration `k`; each iteration applies
`amount = min(max(sample, 2), glitch_amount)` and decrements the
budget, until the budget is no longer positive.  The returned list is
the sequence of applied glitch sizes.  The fuel argument makes the
recursion structural; `budget.toNat` fuel always suffices because every
iteration consumes at least 1 (proved below). -/
def GlitchedPNGFile.glitchSizesAux (samples : Nat → Int) :
    Nat → Int → Nat → List Int
  | 0, _, _ => []
  | fuel + 1, budget, k =>
    if budget > 0 then
      let amount := min (max (samples k) 2) budget
      amount :: GlitchedPNGFile.glitchSizesAux samples fuel (budget - amount) (k + 1)
    else []

/-- The glitch sizes applied by `random_glitches(budget, ...)` for the
gaussian sample stream `samples`. -/
def GlitchedPNGFile.glitchSizes (samples : Nat → Int) (budget : Int) : List Int :=
  GlitchedPNGFile.glitchSizesAux samples budget.toNat budget 0

deriving instance DecidableEq for Except

/-! ## Codec lemmas -/

theorem set_long_length (num : Nat) : (Chunk.set_long num).length = 4 := rfl

theorem set_long_eval (num : Nat) : Chunk.set_long num =
    [num >>> 24 % 256, num >>> 16 % 256, num >>> 8 % 256, num >>> 0 % 256] := rfl

theorem get_long_eval (a b c d : Nat) : Chunk.get_long [a, b, c, d] =
    a <<< 24 + (b <<< 16 + (c <<< 8 + (d <<< 0 + 0))) := rfl

theorem get_long_set_long (num : Nat) (h : num < 2 ^ 32) :
    Chunk.get_long (Chunk.set_long num) = num := by
  rw [set_long_eval, get_long_eval]
  simp only [Nat.shiftRight_eq_div_pow, Nat.shiftLeft_eq]
  norm_num
  omega

/-! ## Length lemmas for the glitch primitives -/

theorem replace_length (buf : List Nat) (pos : Nat) (rep : List Nat) :
    (GlitchedPNGFile.replace buf pos rep).length = buf.length := by
  simp only [GlitchedPNGFile.replace, List.length_take, List.length_append, List.length_drop]
  omega

theorem move_length (buf : List Nat) (length from_ to_ : Nat) :
    (GlitchedPNGFile.move buf length from_ to_).length = buf.length := by
  simp only [GlitchedPNGFile.move, List.length_take, List.length_append, List.length_drop]
  omega

theorem switch_eq_of_le (buf : List Nat) (l1 p1 l2 p2 : Nat) (h : p1 + l1 ≤ p2) :
    GlitchedPNGFile.switch buf l1 p1 l2 p2 =
      some (GlitchedPNGFile.move (GlitchedPNGFile.move buf l2 p2 (p1 + l1)) l1 p1 p2) := by
  have hgt : ¬(p1 > p2) := by omega
  simp [GlitchedPNGFile.switch, hgt, h]

/-! ## Frame lemmas for `move` -/

theorem move_frame_lt (buf : List Nat) (l f t i : Nat) (hf : i < f) (ht : i < t) :
    (GlitchedPNGFile.move buf l f t)[i]? = buf[i]? := by
  by_cases hn : i < buf.length
  · show (((buf.take f ++ buf.drop (f + l)).take t ++ (buf.drop f).take l) ++
      (buf.take f ++ buf.drop (f + l)).drop t)[i]? = buf[i]?
    rw [List.getElem?_append_left
        (by simp only [List.length_append, List.length_take, List.length_drop]; omega),
      List.getElem?_append_left
        (by simp only [List.length_take, List.length_append, List.length_drop]; omega),
      List.getElem?_take_of_lt ht,
      List.getElem?_append_left (by simp only [List.length_take]; omega),
      List.getElem?_take_of_lt hf]
  · rw [List.getElem?_eq_none (by rw [move_length]; omega), List.getElem?_eq_none (by omega)]

theorem move_frame_ge (buf : List Nat) (l f t i : Nat) (hf : f + l ≤ i) (ht : t + l ≤ i) :
    (GlitchedPNGFile.move buf l f t)[i]? = buf[i]? := by
  by_cases hn : i < buf.length
  · show (((buf.take f ++ buf.drop (f + l)).take t ++ (buf.drop f).take l) ++
      (buf.take f ++ buf.drop (f + l)).drop t)[i]? = buf[i]?
    have hA : ((buf.take f ++ buf.drop (f + l)).take t ++ (buf.drop f).take l).length
        = t + l := by
      simp only [List.length_append, List.length_take, List.length_drop]; omega
    rw [List.getElem?_append_right (by omega), hA, List.getElem?_drop]
    have hidx : t + (i - (t + l)) = i - l := by omega
    rw [hidx]
    have hftake : (buf.take f).length = f := by
      simp only [List.length_take]; omega
    rw [List.getElem?_append_right (by omega), hftake, List.getElem?_drop]
    have hidx2 : f + l + (i - l - f) = i := by omega
    rw [hidx2]
  · rw [List.getElem?_eq_none (by rw [move_length]; omega), List.getElem?_eq_none (by omega)]

/-! ## Claim C1 -/

/-- C1: for every `Chunk` and every payload value, immediately after
setting the payload via the `data` property setter, the stored `length`
equals the byte length of the payload and the stored `crc` equals
`crc32` of the 4-byte type concatenated with the payload. -/
theorem C1_set_data_invariant (c : Chunk) (d : List Nat) :
    (c.set_data d).length = d.length ∧
    (c.set_data d).crc = crc32 ((c.set_data d).name ++ (c.set_data d).raw_data) ∧
    (c.set_data d).raw_data = d :=
  ⟨rfl, rfl, rfl⟩

/-! ## Claim C3 -/

/-- C3: every glitch primitive (`replace`, `fill_noise`, `fill_zeros`,
`move`, `switch`), on all valid inputs, leaves the length of the working
buffer unchanged. -/
theorem C3_size_invariance :
    (∀ buf pos rep, (GlitchedPNGFile.replace buf pos rep).length = buf.length) ∧
    (∀ buf length pos rng, (GlitchedPNGFile.fill_noise buf length pos rng).length = buf.length) ∧
    (∀ buf length pos, (GlitchedPNGFile.fill_zeros buf length pos).length = buf.length) ∧
    (∀ buf length from_ to_, (GlitchedPNGFile.move buf length from_ to_).length = buf.length) ∧
    (∀ buf l1 p1 l2 p2 out, GlitchedPNGFile.switch buf l1 p1 l2 p2 = some out →
      out.length = buf.length) := by
  refine ⟨replace_length, fun buf length pos rng => replace_length _ _ _,
    fun buf length pos => replace_length _ _ _, move_length, ?_⟩
  intro buf l1 p1 l2 p2 out h
  by_cases hgt : p1 > p2 <;>
    · simp only [GlitchedPNGFile.switch, hgt, if_true, if_false, ite_true, ite_false] at h
      split at h
      · cases h
        rw [move_length, move_length]
      · cases h

/-- Witness for C3: the `switch` conjunct applied to a concrete buffer,
with the hypothesis discharged by computation. -/
theorem C3_size_invariance_witness :
    ([2, 1, 0, 3] : List Nat).length = ([0, 1, 2, 3] : List Nat).length :=
  C3_size_invariance.2.2.2.2 [0, 1, 2, 3] 1 0 1 2 [2, 1, 0, 3] (by decide)

/-! ## Claim C4 -/

theorem glitchSizesAux_fuel_irrel (samples : Nat → Int) :
    ∀ f1 f2 (b : Int) k, b.toNat ≤ f1 → b.toNat ≤ f2 →
      GlitchedPNGFile.glitchSizesAux samples f1 b k =
        GlitchedPNGFile.glitchSizesAux samples f2 b k := by
  intro f1
  induction f1 with
  | zero =>
    intro f2 b k h1 h2
    have hb : ¬b > 0 := by omega
    cases f2 with
    | zero => rfl
    | succ g => simp [GlitchedPNGFile.glitchSizesAux, hb]
  | succ f ih =>
    intro f2 b k h1 h2
    by_cases hb : b > 0
    · cases f2 with
      | zero => omega
      | succ g =>
        simp only [GlitchedPNGFile.glitchSizesAux, hb, if_true, List.cons.injEq, true_and]
        have ha : 1 ≤ min (max (samples k) 2) b := by omega
        exact ih g (b - min (max (samples k) 2) b) (k + 1) (by omega) (by omega)
    · cases f2 with
      | zero => simp [GlitchedPNGFile.glitchSizesAux, hb]
      | succ g => simp [GlitchedPNGFile.glitchSizesAux, hb]

theorem glitchSizesAux_sum (samples : Nat → Int) :
    ∀ fuel (b : Int) k, 0 ≤ b → b.toNat ≤ fuel →
      (GlitchedPNGFile.glitchSizesAux samples fuel b k).sum = b := by
  intro fuel
  induction fuel with
  | zero =>
    intro b k h0 hf
    have : b = 0 := by omega
    simp [GlitchedPNGFile.glitchSizesAux, this]
  | succ f ih =>
    intro b k h0 hf
    by_cases hb : b > 0
    · have ha : 1 ≤ min (max (samples k) 2) b := by omega
      have hab : min (max (samples k) 2) b ≤ b := by omega
      simp only [GlitchedPNGFile.glitchSizesAux, hb, if_true, List.sum_cons]
      rw [ih (b - min (max (samples k) 2) b) (k + 1) (by omega) (by omega)]
      omega
    · have : b = 0 := by omega
      simp [GlitchedPNGFile.glitchSizesAux, hb, this]

theorem glitchSizesAux_mem (samples : Nat → Int) :
    ∀ fuel (b : Int) k a, a ∈ GlitchedPNGFile.glitchSizesAux samples fuel b k →
      1 ≤ a ∧ a ≤ b := by
  intro fuel
  induction fuel with
  | zero =>
    intro b k a h
    simp [GlitchedPNGFile.glitchSizesAux] at h
  | succ f ih =>
    intro b k a h
    by_cases hb : b > 0
    · simp only [GlitchedPNGFile.glitchSizesAux, hb, if_true, List.mem_cons] at h
      rcases h with h | h
      · omega
      · have := ih (b - min (max (samples k) 2) b) (k + 1) a h
        omega
    · simp [GlitchedPNGFile.glitchSizesAux, hb] at h

theorem glitchSizesAux_take_sum (samples : Nat → Int) :
    ∀ fuel (b : Int) k p, 0 ≤ b →
      ((GlitchedPNGFile.glitchSizesAux samples fuel b k).take p).sum ≤ b := by
  intro fuel
  induction fuel with
  | zero =>
    intro b k p h0
    simp [GlitchedPNGFile.glitchSizesAux]
    exact h0
  | succ f ih =>
    intro b k p h0
    by_cases hb : b > 0
    · simp only [GlitchedPNGFile.glitchSizesAux, hb, if_true]
      cases p with
      | zero => simpa using h0
      | succ q =>
        simp only [List.take_succ_cons, List.sum_cons]
        have ha : 1 ≤ min (max (samples k) 2) b := by omega
        have := ih (b - min (max (samples k) 2) b) (k + 1) q (by omega)
        omega
    · simp only [GlitchedPNGFile.glitchSizesAux, hb, if_false, ite_false]
      simpa using h0

/-- C4 fails as stated: with budget 3 and every gaussian sample equal
to 2, the loop applies sizes `[2, 1]` — the second iteration's size is
`min(max(2, 2), 1) = 1`, which does not lie between 2 and the remaining
budget. -/
theorem C4_counterexample :
    GlitchedPNGFile.glitchSizes (fun _ => 2) 3 = [2, 1] ∧
    ¬(∀ a ∈ GlitchedPNGFile.glitchSizes (fun _ => 2) 3, 2 ≤ a) := by
  decide

/-- C4 amended: for every positive budget and every sample stream,
`random_glitches` terminates (any fuel of at least `budget.toNat`
iterations yields the same size list), each applied size is at least 1
and at most the budget, no prefix of applied sizes ever exceeds the
budget (so the remaining budget never goes negative), and the applied
sizes sum to exactly the budget.  (As stated the claim put every size
in `[2, remaining]`; when the remaining budget falls to 1 the clamp
`min(max(sample, 2), remaining)` yields 1 instead.) -/
theorem C4_random_glitches_budget (samples : Nat → Int) (budget : Int) (h : 0 < budget) :
    (∀ fuel, budget.toNat ≤ fuel →
      GlitchedPNGFile.glitchSizesAux samples fuel budget 0 =
        GlitchedPNGFile.glitchSizes samples budget) ∧
    (GlitchedPNGFile.glitchSizes samples budget).sum = budget ∧
    (∀ p, ((GlitchedPNGFile.glitchSizes samples budget).take p).sum ≤ budget) ∧
    (∀ a ∈ GlitchedPNGFile.glitchSizes samples budget, 1 ≤ a ∧ a ≤ budget) := by
  refine ⟨fun fuel hf => glitchSizesAux_fuel_irrel samples fuel budget.toNat budget 0 hf
      (le_refl _),
    glitchSizesAux_sum samples budget.toNat budget 0 (by omega) (le_refl _),
    fun p => glitchSizesAux_take_sum samples budget.toNat budget 0 p (by omega),
    fun a ha => glitchSizesAux_mem samples budget.toNat budget 0 a ha⟩

/-- Witness for the amended C4: the exact-sum clause at budget 3 with
all samples equal to 2. -/
theorem C4_random_glitches_budget_witness :
    (GlitchedPNGFile.glitchSizes (fun _ => 2) 3).sum = 3 :=
  (C4_random_glitches_budget (fun _ => 2) 3 (by decide)).2.1

/-! ## Claim C5 -/

/-- C5 fails as stated: with `len_one = 3 > 1 = len_two` the byte at
index 5 — strictly outside `[pos_one, pos_two + len_two) = [0, 5)` — is
changed by `switch`, because the second internal `move` reinserts block
one at `pos_two` instead of at the vacated position `pos_two + len_two
- len_one`, splitting the tail. -/
theorem C5_counterexample :
    (0 + 3 ≤ 4 ∧ 4 + 1 ≤ ([0, 1, 2, 3, 4, 5, 6, 7, 8, 9] : List Nat).length) ∧
    GlitchedPNGFile.switch [0, 1, 2, 3, 4, 5, 6, 7, 8, 9] 3 0 1 4 =
      some [4, 3, 5, 6, 0, 1, 2, 7, 8, 9] ∧
    (¬(5 : Nat) < 0 ∧ 4 + 1 ≤ 5) ∧
    ([4, 3, 5, 6, 0, 1, 2, 7, 8, 9] : List Nat)[5]? ≠
      ([0, 1, 2, 3, 4, 5, 6, 7, 8, 9] : List Nat)[5]? := by
  decide

/-- C5 amended: under `pos_one + len_one ≤ pos_two` and
`pos_two + len_two ≤ len(buffer)`, every byte at an index strictly
outside `[pos_one, pos_two + max len_one len_two)` is unchanged by
`switch` (for equal block lengths this is the interval the claim
states; for `len_one > len_two` the protected region must end at
`pos_two + len_one`). -/
theorem C5_switch_frame (buf : List Nat) (l1 p1 l2 p2 : Nat) (out : List Nat) (i : Nat)
    (h1 : p1 + l1 ≤ p2) (h2 : p2 + l2 ≤ buf.length)
    (hsw : GlitchedPNGFile.switch buf l1 p1 l2 p2 = some out)
    (hi : i < p1 ∨ p2 + max l1 l2 ≤ i) :
    out[i]? = buf[i]? := by
  rw [switch_eq_of_le buf l1 p1 l2 p2 h1] at hsw
  cases hsw
  rcases hi with hi | hi
  · rw [move_frame_lt _ _ _ _ _ hi (by omega), move_frame_lt _ _ _ _ _ (by omega) (by omega)]
  · rw [move_frame_ge _ _ _ _ _ (by omega) (by omega),
      move_frame_ge _ _ _ _ _ (by omega) (by omega)]

/-- Witness for C5: the amended frame theorem applied at a concrete
buffer and index 7 = `pos_two + max len_one len_two`. -/
theorem C5_switch_frame_witness :
    ([4, 3, 5, 6, 0, 1, 2, 7, 8, 9] : List Nat)[7]? =
      ([0, 1, 2, 3, 4, 5, 6, 7, 8, 9] : List Nat)[7]? :=
  C5_switch_frame [0, 1, 2, 3, 4, 5, 6, 7, 8, 9] 3 0 1 4 [4, 3, 5, 6, 0, 1, 2, 7, 8, 9] 7
    (by decide) (by decide) (by decide) (by decide)

/-! ## Claim C8 -/

/-- C8 fails as stated: a caller-supplied explicit position or length
whose affected range exceeds the buffer is not rejected — each
primitive completes normally and silently clamps.  `replace` past the
end is a no-op, `move` of a block starting past the end moves nothing,
and `fill_zeros` with an overlong length writes only up to the original
extent. -/
theorem C8_counterexample :
    GlitchedPNGFile.replace [1, 2, 3] 5 [9] = [1, 2, 3] ∧
    GlitchedPNGFile.move [1, 2, 3] 2 5 0 = [1, 2, 3] ∧
    GlitchedPNGFile.fill_zeros [1, 2, 3] 4 1 = [1, 0, 0] := by
  decide

/-- C8 amended: out-of-range explicit arguments are not validated;
`replace` (and with it `fill_noise`/`fill_zeros`) silently truncates the
write at the original buffer extent: when `pos + len(rep)` reaches past
the end, the result keeps the first `pos` bytes and fills the rest with
the matching prefix of `rep`. -/
theorem C8_oob_clamped_not_rejected (buf : List Nat) (pos : Nat) (rep : List Nat)
    (h : buf.length ≤ pos + rep.length) :
    GlitchedPNGFile.replace buf pos rep = buf.take pos ++ rep.take (buf.length - pos) := by
  unfold GlitchedPNGFile.replace
  rw [List.drop_eq_nil_of_le (by omega), List.append_nil, List.take_append_eq_append_take]
  refine congrArg₂ (· ++ ·) ?_ ?_
  · rw [List.take_take, List.take_eq_take]
    omega
  · rw [List.length_take, List.take_eq_take]
    omega

/-- Witness for the amended C8: the clamping equation at a concrete
out-of-range write. -/
theorem C8_oob_clamped_not_rejected_witness :
    GlitchedPNGFile.replace [1, 2, 3] 1 [7, 8, 9] = [1, 7, 8] :=
  C8_oob_clamped_not_rejected [1, 2, 3] 1 [7, 8, 9] (by decide)

/-! ## Claim C10 -/

/-- C10: `replace` with an explicit position at or past the end of the
working buffer (and hence `fill_noise` and `fill_zeros` with such a
position) leaves the buffer completely unchanged: the write is appended
past the end and then truncated away. -/
theorem C10_oob_write_is_noop (buf : List Nat) (pos : Nat) (rep : List Nat)
    (length : Nat) (rng : Nat → Nat) (h : buf.length ≤ pos) :
    GlitchedPNGFile.replace buf pos rep = buf ∧
    GlitchedPNGFile.fill_noise buf length pos rng = buf ∧
    GlitchedPNGFile.fill_zeros buf length pos = buf := by
  have key : ∀ r : List Nat, GlitchedPNGFile.replace buf pos r = buf := by
    intro r
    unfold GlitchedPNGFile.replace
    rw [List.take_of_length_le h, List.drop_eq_nil_of_le (by omega), List.append_nil,
      List.take_append_of_le_length (le_refl _), List.take_length]
  exact ⟨key rep, key _, key _⟩

/-- Witness for C10: the theorem applied at a concrete buffer with the
position exactly at the end. -/
theorem C10_oob_write_is_noop_witness :
    GlitchedPNGFile.replace [1, 2] 2 [9] = [1, 2] ∧
    GlitchedPNGFile.fill_noise [1, 2] 3 2 (fun i => i) = [1, 2] ∧
    GlitchedPNGFile.fill_zeros [1, 2] 3 2 = [1, 2] :=
  C10_oob_write_is_noop [1, 2] 2 [9] 3 (fun i => i) (by decide)

/-! ## Claim C6 -/

/-- C6 fails as stated: `get_raw` serializes the *stored* `length` and
`crc` attributes.  On a chunk whose attributes were made stale by
direct assignment (stored length 5, stored CRC 0, payload `[1, 2]`),
the serialized length field encodes 5, not the payload length 2, and
the CRC field encodes 0, not the re-derived CRC. -/
theorem C6_counterexample :
    Chunk.get_raw { name := idatName, pos := 0, length := 5, crc := 0, raw_data := [1, 2] } ≠
      Chunk.set_long 2 ++ idatName ++ [1, 2] ++
        Chunk.set_long (crc32 (idatName ++ [1, 2])) := by
  decide

/-- C6 amended: `get_raw` serializes the stored `length` and `crc`
fields as they are; whenever those stored fields are consistent with
the payload (as they are after any `data`-setter call), the output
coincides with the re-derived serialization. -/
theorem C6_get_raw_stored_fields (c : Chunk)
    (hlen : c.length = c.raw_data.length) (hcrc : c.crc = c.compute_crc) :
    Chunk.get_raw c =
      Chunk.set_long c.raw_data.length ++ c.name ++ c.raw_data ++
        Chunk.set_long (crc32 (c.name ++ c.raw_data)) := by
  unfold Chunk.get_raw
  rw [hlen, hcrc]
  rfl

set_option maxRecDepth 40000 in
/-- Witness for the amended C6: a chunk built through the constructor
(hence with consistent stored fields). -/
theorem C6_get_raw_stored_fields_witness :
    Chunk.get_raw (Chunk.init idatName [1]) =
      Chunk.set_long (Chunk.init idatName [1]).raw_data.length ++
        (Chunk.init idatName [1]).name ++ (Chunk.init idatName [1]).raw_data ++
        Chunk.set_long (crc32 ((Chunk.init idatName [1]).name ++
          (Chunk.init idatName [1]).raw_data)) :=
  C6_get_raw_stored_fields (Chunk.init idatName [1]) rfl rfl

/-! ## Claim C2 -/

theorem count_bound (n s : Nat) (hs : 0 < s) :
    n ≤ (n / s + if n % s ≠ 0 then 1 else 0) * s := by
  by_cases h : n % s = 0
  · simp only [h, ne_eq, not_true_eq_false, if_false, Nat.add_zero]
    have he : n = n / s * s := by
      calc n = s * (n / s) + n % s := (Nat.div_add_mod n s).symm
      _ = n / s * s := by rw [h, Nat.add_zero, Nat.mul_comm]
    exact he.le
  · simp only [ne_eq, h, not_false_eq_true, if_true]
    calc n = s * (n / s) + n % s := (Nat.div_add_mod n s).symm
    _ ≤ s * (n / s) + s := Nat.add_le_add_left (Nat.le_of_lt (Nat.mod_lt _ hs)) _
    _ = (n / s + 1) * s := by ring

theorem slice_flatten (s : Nat) (hs : 0 < s) :
    ∀ (k : Nat) (l : List Nat), l.length ≤ k * s →
      ((List.range k).map (fun i => (l.take ((i + 1) * s)).drop (i * s))).flatten = l := by
  intro k
  induction k with
  | zero =>
    intro l h
    have : l = [] := List.eq_nil_of_length_eq_zero (by omega)
    simp [this]
  | succ n ih =>
    intro l h
    rw [List.range_succ_eq_map]
    simp only [List.map_cons, List.map_map, List.flatten_cons, Nat.zero_add, Nat.one_mul,
      Nat.zero_mul, List.drop_zero]
    have htail : ∀ i : Nat,
        ((fun i => (l.take ((i + 1) * s)).drop (i * s)) ∘ Nat.succ) i =
          (fun i => ((l.drop s).take ((i + 1) * s)).drop (i * s)) i := by
      intro i
      simp only [Function.comp_apply, Nat.succ_eq_add_one]
      rw [List.drop_take, List.drop_take, List.drop_drop]
      have e1 : (i + 1 + 1) * s = i * s + s + s := by ring
      have e2 : (i + 1) * s = i * s + s := by ring
      rw [e1, e2]
      have e3 : i * s + s + s - (i * s + s) = s := by omega
      have e4 : i * s + s - i * s = s := by omega
      have e5 : s + i * s = i * s + s := by omega
      rw [e3, e4, e5]
    rw [List.map_congr_left (fun i _ => htail i)]
    have hlen2 : (l.drop s).length ≤ n * s := by
      simp only [List.length_drop]
      have e : (n + 1) * s = n * s + s := by ring
      rw [e] at h
      generalize n * s = m at h ⊢
      omega
    rw [ih (l.drop s) hlen2]
    exact List.take_append_drop s l

theorem buffer_to_chunks_raw_flatten (deflate : List Nat → List Nat) (buf : List Nat)
    (s : Nat) (hs : 0 < s) :
    ((PNGFile.buffer_to_chunks deflate buf s).map (fun c => c.raw_data)).flatten
      = deflate buf := by
  unfold PNGFile.buffer_to_chunks
  simp only [List.map_map]
  have hcomp : ∀ i : Nat,
      ((fun c => c.raw_data) ∘
        (fun i => Chunk.init idatName (((deflate buf).take ((i + 1) * s)).drop (i * s)))) i =
      (fun i => ((deflate buf).take ((i + 1) * s)).drop (i * s)) i := fun i => rfl
  rw [List.map_congr_left (fun i _ => hcomp i)]
  exact slice_flatten s hs _ (deflate buf) (count_bound (deflate buf).length s hs)

/-- C2: after `overload(buf)` (the recompress-and-replace step, with the
chunk size taken from the first `IDAT` chunk), concatenating the
payloads of the container's `IDAT` chunks and inflating them yields
exactly `buf` — the slicing into `chunk_size`-byte pieces loses no
bytes.  `deflate`/`inflate` stand for `zlib.compress`/`zlib.decompress`
with their round-trip law. -/
theorem C2_overload_roundtrip (deflate inflate : List Nat → List Nat)
    (hinv : ∀ b, inflate (deflate b) = b)
    (png : PNGFile) (buf : List Nat) (c : Chunk)
    (hidat : png.idat_chunks.head? = some c) (hlen : 0 < c.length) :
    (PNGFile.overload deflate png buf).map (PNGFile.decompress inflate) = some buf := by
  unfold PNGFile.overload
  rw [hidat]
  simp only [Option.map_some']
  unfold PNGFile.decompress PNGFile.idat_chunks
  simp only
  rw [List.filter_append, List.filter_append]
  have h1 : png.various_chunks.filter (fun c => c.name == idatName) = [] := by
    rw [List.filter_eq_nil_iff]
    intro a ha
    unfold PNGFile.various_chunks at ha
    have hmem := (List.mem_filter.mp ha).2
    simp only [Bool.not_eq_true', Bool.or_eq_false_iff, beq_eq_false_iff_ne, ne_eq] at hmem
    simp only [beq_iff_eq]
    exact hmem.1
  have h2 : (PNGFile.buffer_to_chunks deflate buf c.length).filter
      (fun c => c.name == idatName) = PNGFile.buffer_to_chunks deflate buf c.length := by
    rw [List.filter_eq_self]
    intro a ha
    unfold PNGFile.buffer_to_chunks at ha
    simp only [List.mem_map] at ha
    obtain ⟨i, _, rfl⟩ := ha
    rfl
  have h3 : [Chunk.init iendName []].filter (fun c => c.name == idatName) = [] := by
    decide
  rw [h1, h2, h3]
  simp only [List.nil_append, List.append_nil]
  rw [buffer_to_chunks_raw_flatten deflate buf c.length hlen]
  exact congrArg some (hinv buf)

/-- Witness for C2: the identity as the deflate/inflate pair, one
original `IDAT` chunk of stored length 2, and a 3-byte buffer (so the
compressed stream is split into two chunks, sizes 2 and 1). -/
theorem C2_overload_roundtrip_witness :
    (PNGFile.overload id
        ⟨magicHeader, [{ name := idatName, pos := 0, length := 2, crc := 0, raw_data := [7, 7] }]⟩
        [5, 6, 7]).map (PNGFile.decompress id) = some [5, 6, 7] :=
  C2_overload_roundtrip id id (fun _ => rfl)
    ⟨magicHeader, [{ name := idatName, pos := 0, length := 2, crc := 0, raw_data := [7, 7] }]⟩
    [5, 6, 7] { name := idatName, pos := 0, length := 2, crc := 0, raw_data := [7, 7] }
    (by decide) (by decide)

/-! ## Parsing lemmas -/

theorem parseChunksAux_nil (fuel off : Nat) : parseChunksAux fuel [] off = .error () := by
  cases fuel <;> simp [parseChunksAux]

theorem parseChunksAux_cons (fuel : Nat) (c : Chunk) (rest : List Nat) (off : Nat)
    (hname : c.name.length = 4) (hlen : c.length = c.raw_data.length)
    (hpos : 0 < c.length) (hlen32 : c.length < 2 ^ 32) (hcrc32 : c.crc < 2 ^ 32) :
    parseChunksAux (fuel + 1) (Chunk.get_raw c ++ rest) off =
      (parseChunksAux fuel rest (off + 12 + c.length)).map
        (fun cs => { c with pos := off } :: cs) := by
  have hsl : ∀ n : Nat, (Chunk.set_long n).length = 4 := fun _ => rfl
  have hs : Chunk.get_raw c ++ rest =
      Chunk.set_long c.length ++ (c.name ++ (c.raw_data ++ (Chunk.set_long c.crc ++ rest))) := by
    simp [Chunk.get_raw, List.append_assoc]
  have htake4 : (Chunk.get_raw c ++ rest).take 4 = Chunk.set_long c.length := by
    rw [hs, List.take_left' (hsl _)]
  have hdrop4 : (Chunk.get_raw c ++ rest).drop 4 =
      c.name ++ (c.raw_data ++ (Chunk.set_long c.crc ++ rest)) := by
    rw [hs, List.drop_left' (hsl _)]
  have hdrop8 : (Chunk.get_raw c ++ rest).drop 8 =
      c.raw_data ++ (Chunk.set_long c.crc ++ rest) := by
    have h48 : (Chunk.get_raw c ++ rest).drop 8 =
        ((Chunk.get_raw c ++ rest).drop 4).drop 4 := (List.drop_drop 4 4 _).symm
    rw [h48, hdrop4, List.drop_left' hname]
  have hL : Chunk.get_long ((Chunk.get_raw c ++ rest).take 4) = c.length := by
    rw [htake4, get_long_set_long c.length hlen32]
  have hname4 : ((Chunk.get_raw c ++ rest).drop 4).take 4 = c.name := by
    rw [hdrop4, List.take_left' hname]
  have hdata : ((Chunk.get_raw c ++ rest).drop 8).take c.length = c.raw_data := by
    rw [hdrop8, List.take_left' hlen.symm]
  have hdropcrc : (Chunk.get_raw c ++ rest).drop (8 + c.length) =
      Chunk.set_long c.crc ++ rest := by
    have hsplit : (Chunk.get_raw c ++ rest).drop (8 + c.length) =
        ((Chunk.get_raw c ++ rest).drop 8).drop c.length := (List.drop_drop c.length 8 _).symm
    rw [hsplit, hdrop8, List.drop_left' hlen.symm]
  have hcrcval : Chunk.get_long (((Chunk.get_raw c ++ rest).drop (8 + c.length)).take 4)
      = c.crc := by
    rw [hdropcrc, List.take_left' (hsl _), get_long_set_long c.crc hcrc32]
  have hrest : (Chunk.get_raw c ++ rest).drop (12 + c.length) = rest := by
    have e : 12 + c.length = 8 + c.length + 4 := by omega
    have hsplit : (Chunk.get_raw c ++ rest).drop (8 + c.length + 4) =
        ((Chunk.get_raw c ++ rest).drop (8 + c.length)).drop 4 := (List.drop_drop 4 _ _).symm
    rw [e, hsplit, hdropcrc, List.drop_left' (hsl _)]
  simp only [parseChunksAux, hL, hname4, hdata, hcrcval, hrest]
  rw [if_neg (by simp [hname]), if_neg (by omega)]
  cases parseChunksAux fuel rest (off + 12 + c.length) <;> rfl

theorem get_raw_length_pos (c : Chunk) : 0 < (Chunk.get_raw c).length := by
  unfold Chunk.get_raw
  simp only [List.length_append, set_long_length]
  omega

theorem length_le_flatten_get_raw (cs : List Chunk) :
    cs.length ≤ ((cs.map Chunk.get_raw).flatten).length := by
  induction cs with
  | nil => simp
  | cons c cs ih =>
    simp only [List.map_cons, List.flatten_cons, List.length_append, List.length_cons]
    have := get_raw_length_pos c
    omega

theorem parse_encoded (cs : List Chunk)
    (hwf : ∀ c ∈ cs, c.name.length = 4 ∧ 0 < c.length ∧ c.length = c.raw_data.length ∧
      c.length < 2 ^ 32 ∧ c.crc < 2 ^ 32) :
    ∀ fuel off, cs.length + 1 ≤ fuel →
      ∃ cs', parseChunksAux fuel
          ((cs.map Chunk.get_raw).flatten ++ Chunk.get_raw (Chunk.init iendName [])) off
        = .ok cs' ∧ cs'.map Chunk.get_raw = cs.map Chunk.get_raw := by
  induction cs with
  | nil =>
    intro fuel off hf
    match fuel, hf with
    | fuel + 1, _ =>
      exact ⟨[], rfl, rfl⟩
  | cons c cs ih =>
    intro fuel off hf
    match fuel, hf with
    | fuel + 1, hf =>
      obtain ⟨hn, hp, hl, h32, hc32⟩ := hwf c (List.mem_cons_self _ _)
      rw [List.map_cons, List.flatten_cons, List.append_assoc,
        parseChunksAux_cons fuel c _ off hn hl hp h32 hc32]
      obtain ⟨cs', hok, hraw⟩ :=
        ih (fun a ha => hwf a (List.mem_cons_of_mem _ ha)) fuel (off + 12 + c.length)
          (by simp only [List.length_cons] at hf; omega)
      rw [hok]
      exact ⟨{ c with pos := off } :: cs', rfl, by
        simp only [List.map_cons, hraw, List.cons.injEq, and_true]; rfl⟩

theorem parse_sound :
    ∀ fuel s off cs, parseChunksAux fuel s off = .ok cs →
      ∀ c ∈ cs, c.length ≠ 0 ∧ c.raw_data ≠ [] := by
  intro fuel
  induction fuel with
  | zero =>
    intro s off cs h
    exact absurd h (by simp [parseChunksAux])
  | succ f ih =>
    intro s off cs h
    simp only [parseChunksAux] at h
    split at h
    · exact absurd h (by simp)
    · next hnm =>
      split at h
      · -- zero-length chunk: parsing stops with the empty list
        injection h with h'
        subst h'
        intro a ha
        exact absurd ha (List.not_mem_nil a)
      · next hLne =>
        split at h
        · exact absurd h (by simp)
        · next cs₁ hrec =>
          injection h with h'
          subst h'
          have hslen : 8 ≤ s.length := by
            have := List.length_take 4 (s.drop 4)
            have h4 : ((s.drop 4).take 4).length = 4 := by omega
            simp only [List.length_take, List.length_drop] at h4
            omega
          have hslen9 : 9 ≤ s.length := by
            by_contra hcon
            have hnil : s.drop (12 + Chunk.get_long (s.take 4)) = [] :=
              List.drop_eq_nil_of_le (by omega)
            rw [hnil, parseChunksAux_nil] at hrec
            exact absurd hrec (by simp)
          intro a ha
          rcases List.mem_cons.mp ha with rfl | ha
          · refine ⟨hLne, List.ne_nil_of_length_pos ?_⟩
            simp only [List.length_take, List.length_drop]
            omega
          · exact ih _ _ _ hrec a ha

/-! ## Claim C9 -/

/-- C9: chunk parsing stops at the first chunk whose stored payload
length is 0 and does not store it; consequently every chunk of a
successfully loaded container has nonzero stored length and non-empty
payload (in particular the terminal zero-length `IEND` chunk never
appears in the chunk list). -/
theorem C9_no_empty_chunk_stored :
    (∀ f png, PNGFile.load f = .ok png →
      ∀ c ∈ png.chunks, c.length ≠ 0 ∧ c.raw_data ≠ []) ∧
    (∀ fuel s off, ((s.drop 4).take 4).length = 4 → Chunk.get_long (s.take 4) = 0 →
      0 < fuel → parseChunksAux fuel s off = .ok []) := by
  constructor
  · intro f png h
    unfold PNGFile.load at h
    split at h
    · cases hp : parseChunksAux ((f.drop 8).length + 1) (f.drop 8) 8 with
      | error e => rw [hp] at h; exact absurd h (by simp [Except.map])
      | ok cs =>
        rw [hp] at h
        simp only [Except.map] at h
        injection h with h'
        subst h'
        exact parse_sound _ _ _ _ hp
    · exact absurd h (by simp)
  · intro fuel s off h4 hL hf
    match fuel, hf with
    | fuel + 1, _ =>
      simp [parseChunksAux, h4, hL]

/-- Witness for C9: a concrete two-chunk file (one `IDAT` chunk, then a
zero-length `IEND` chunk); the loaded container stores exactly the
`IDAT` chunk, and a stream starting with a zero-length chunk parses to
the empty chunk list. -/
theorem C9_no_empty_chunk_stored_witness :
    (∀ c ∈ (PNGFile.mk [0x89, 0x50, 0x4E, 0x47, 0x0D, 0x0A, 0x1A, 0x0A]
        [{ name := [73, 68, 65, 84], pos := 8, length := 1, crc := 0, raw_data := [7] }]).chunks,
      c.length ≠ 0 ∧ c.raw_data ≠ []) ∧
    parseChunksAux 1 ([0, 0, 0, 0] ++ [73, 69, 78, 68] ++ [9, 9, 9, 9]) 0 = .ok [] :=
  ⟨C9_no_empty_chunk_stored.1
      ([0x89, 0x50, 0x4E, 0x47, 0x0D, 0x0A, 0x1A, 0x0A] ++
        ([0, 0, 0, 1] ++ [73, 68, 65, 84] ++ [7] ++ [0, 0, 0, 0]) ++
        ([0, 0, 0, 0] ++ [73, 69, 78, 68] ++ [0, 0, 0, 0]))
      (PNGFile.mk [0x89, 0x50, 0x4E, 0x47, 0x0D, 0x0A, 0x1A, 0x0A]
        [{ name := [73, 68, 65, 84], pos := 8, length := 1, crc := 0, raw_data := [7] }])
      (by decide),
    C9_no_empty_chunk_stored.2 1 ([0, 0, 0, 0] ++ [73, 69, 78, 68] ++ [9, 9, 9, 9]) 0
      (by decide) (by decide) (by decide)⟩

/-! ## Claim C7 -/

/-- C7 fails as stated: loading a well-formed PNG drops its terminal
`IEND` chunk (the zero-length chunk terminates the parse loop without
being stored), so writing the container back out produces the original
file minus its last 12 bytes, not a byte-identical file. -/
theorem C7_counterexample :
    (PNGFile.load ([0x89, 0x50, 0x4E, 0x47, 0x0D, 0x0A, 0x1A, 0x0A] ++
        ([0, 0, 0, 1] ++ [73, 68, 65, 84] ++ [7] ++ [0, 0, 0, 0]) ++
        ([0, 0, 0, 0] ++ [73, 69, 78, 68] ++ [0, 0, 0, 0]))).map PNGFile.write =
      .ok ([0x89, 0x50, 0x4E, 0x47, 0x0D, 0x0A, 0x1A, 0x0A] ++
        ([0, 0, 0, 1] ++ [73, 68, 65, 84] ++ [7] ++ [0, 0, 0, 0])) ∧
    ([0x89, 0x50, 0x4E, 0x47, 0x0D, 0x0A, 0x1A, 0x0A] ++
        ([0, 0, 0, 1] ++ [73, 68, 65, 84] ++ [7] ++ [0, 0, 0, 0]) : List Nat) ≠
      ([0x89, 0x50, 0x4E, 0x47, 0x0D, 0x0A, 0x1A, 0x0A] ++
        ([0, 0, 0, 1] ++ [73, 68, 65, 84] ++ [7] ++ [0, 0, 0, 0]) ++
        ([0, 0, 0, 0] ++ [73, 69, 78, 68] ++ [0, 0, 0, 0])) := by
  decide

/-- C7 amended: loading a well-formed PNG (magic header, a sequence of
consistent nonzero-length chunks, a terminal zero-length `IEND` chunk)
and immediately writing the container back out reproduces the original
file *minus the terminal IEND chunk*; every stored chunk re-encodes
byte-identically. -/
theorem C7_load_write_drops_iend (cs : List Chunk)
    (hwf : ∀ c ∈ cs, c.name.length = 4 ∧ 0 < c.length ∧ c.length = c.raw_data.length ∧
      c.length < 2 ^ 32 ∧ c.crc < 2 ^ 32) :
    (PNGFile.load (magicHeader ++
        ((cs.map Chunk.get_raw).flatten ++ Chunk.get_raw (Chunk.init iendName [])))).map
      PNGFile.write = .ok (magicHeader ++ (cs.map Chunk.get_raw).flatten) := by
  unfold PNGFile.load
  have htake : (magicHeader ++
      ((cs.map Chunk.get_raw).flatten ++ Chunk.get_raw (Chunk.init iendName []))).take 8
      = magicHeader := List.take_left' rfl
  have hdrop : (magicHeader ++
      ((cs.map Chunk.get_raw).flatten ++ Chunk.get_raw (Chunk.init iendName []))).drop 8
      = (cs.map Chunk.get_raw).flatten ++ Chunk.get_raw (Chunk.init iendName []) :=
    List.drop_left' rfl
  rw [htake, hdrop, if_pos rfl]
  obtain ⟨cs', hok, hraw⟩ := parse_encoded cs hwf
    (((cs.map Chunk.get_raw).flatten ++ Chunk.get_raw (Chunk.init iendName [])).length + 1) 8
    (by
      have h1 := length_le_flatten_get_raw cs
      simp only [List.length_append]
      omega)
  rw [hok]
  simp only [Except.map, PNGFile.write, hraw]

/-- Witness for the amended C7: a single consistent `IDAT` chunk. -/
theorem C7_load_write_drops_iend_witness :
    (PNGFile.load (magicHeader ++
        ((([{ name := idatName, pos := 0, length := 1, crc := 0, raw_data := [7] }] :
            List Chunk).map Chunk.get_raw).flatten ++
          Chunk.get_raw (Chunk.init iendName [])))).map PNGFile.write =
      .ok (magicHeader ++
        (([{ name := idatName, pos := 0, length := 1, crc := 0, raw_data := [7] }] :
            List Chunk).map Chunk.get_raw).flatten) :=
  C7_load_write_drops_iend
    [{ name := idatName, pos := 0, length := 1, crc := 0, raw_data := [7] }]
    (by decide)

end Pngglitch
